import Mathlib

/-!
Verification of `src/operation/intersection.rs` of the rust-geo repository.

The module implements pairwise geometric intersection over a generic
floating-point coordinate type `T: Float`.  We embed the coordinate type as
`ℚ`, which has the exact operations the code relies on (subtraction,
multiplication, exact equality with a zero element, total order); the spec
explicitly states that the semantics is exact structural comparison, with
no epsilon tolerance.  Rust `clone` on these value types is the identity.
A Rust panic (the out-of-bounds slice `self.0[1..]` on an empty vector) is
modelled with `Except`.
-/

/-- Embeds `Point<T>`: an immutable pair of coordinates. -/
structure Point where
  x : ℚ
  y : ℚ
deriving DecidableEq, Repr

/-- Embeds `LineString<T>`: a wrapper around an ordered vertex list
(the Rust newtype field `self.0`). -/
structure LineString where
  points : List Point
deriving DecidableEq, Repr

/-- Embeds the tagged union `Geometry<T>` restricted to the variants the
module produces. -/
inductive Geometry where
  | point : Point → Geometry
  | lineString : LineString → Geometry
deriving DecidableEq, Repr

/-- Embeds `impl Intersection<T, Point<T>> for Point<T>`:
returns the point if the two are equal, else nothing. -/
def Point.intersection (self other_point : Point) : Option Geometry :=
  if self = other_point then
    some (Geometry.point self)
  else
    none

/-- Embeds the `for (start, end) in self.0.iter().zip(self.0[1..].iter())`
loop body of `impl Intersection<T, Point<T>> for LineString<T>`, one
consecutive vertex pair at a time.  `continue` is the recursive call on the
remaining pairs; `return Some(...)` stops the recursion. -/
def ipGo (point : Point) : List (Point × Point) → Option Geometry
  | [] => none
  | (start, stop) :: rest =>
    let dx_point := point.x - start.x
    let dy_point := point.y - start.y
    let dx_line := stop.x - start.x
    let dy_line := stop.y - start.y
    let cross_product_magnitude := dx_point * dy_line - dy_point * dx_line
    if cross_product_magnitude ≠ 0 then
      ipGo point rest
    else
      -- point is on the line extending from the segment, but is it within the segment?
      let coord : Point → ℚ := if dx_line = 0 then Point.y else Point.x
      let bounds := if coord start < coord stop then
        (coord start, coord stop)
      else
        (coord stop, coord start)
      if bounds.1 ≤ coord point ∧ coord point ≤ bounds.2 then
        some (Geometry.point point)
      else
        ipGo point rest

/-- Embeds `impl Intersection<T, Point<T>> for LineString<T>`.  The slice
expression `self.0[1..]` panics when the vertex vector is empty (start
index 1 exceeds length 0); the panic is modelled as `Except.error`.  For a
non-empty vector `self.0[1..]` is the tail of the vertex list. -/
def LineString.intersectionPoint (self : LineString) (point : Point) :
    Except String (Option Geometry) :=
  match self.points with
  | [] => Except.error "range start index 1 out of range for slice of length 0"
  | ps => Except.ok (ipGo point (ps.zip ps.tail))

/-- Embeds `impl Intersection<T, LineString<T>> for LineString<T>` (the
placeholder revision in the source): structural equality of the two vertex
vectors, returning a clone of the left operand. -/
def LineString.intersectionLineString (self other_line_string : LineString) :
    Option Geometry :=
  if self.points = other_line_string.points then
    some (Geometry.lineString self)
  else
    none

/-- The list of consecutive vertex pairs (segments) of a LineString, in
traversal order — the sequence the Rust `zip` iterates over. -/
def segPairs (self : LineString) : List (Point × Point) :=
  self.points.zip self.points.tail

/-- The 2D cross product the spec describes:
`cross = dx_point*dy_line - dy_point*dx_line`. -/
def crossProd (p s e : Point) : ℚ :=
  (p.x - s.x) * (e.y - s.y) - (p.y - s.y) * (e.x - s.x)

/-- Spec-side per-segment containment check, written from the words of
§4.2 of the spec: collinearity via the cross product, then inclusive
containment between `min` and `max` of the endpoint coordinates on the
dominant axis (y for a vertical segment, x otherwise). -/
def specSegContains (p s e : Point) : Bool :=
  if crossProd p s e ≠ 0 then
    false
  else
    let c : Point → ℚ := if e.x - s.x = 0 then Point.y else Point.x
    decide (min (c s) (c e) ≤ c p ∧ c p ≤ max (c s) (c e))

/-- Geometric membership of a point in a closed segment, as a convex
combination of the endpoints. -/
def onSegment (p s e : Point) : Prop :=
  ∃ t : ℚ, 0 ≤ t ∧ t ≤ 1 ∧
    p.x = s.x + t * (e.x - s.x) ∧ p.y = s.y + t * (e.y - s.y)

/-- A point strictly between the endpoints of a segment, on the line
through them. -/
def strictlyBetween (p s e : Point) : Prop :=
  ∃ t : ℚ, 0 < t ∧ t < 1 ∧
    p.x = s.x + t * (e.x - s.x) ∧ p.y = s.y + t * (e.y - s.y)

-- Helper lemmas

theorem ipGo_cons (point s e : Point) (rest : List (Point × Point)) :
    ipGo point ((s, e) :: rest) =
      if specSegContains point s e then some (Geometry.point point)
      else ipGo point rest := by
  by_cases hc : (point.x - s.x) * (e.y - s.y) - (point.y - s.y) * (e.x - s.x) = 0
  · have hc' : crossProd point s e = 0 := hc
    by_cases hv : e.x - s.x = 0
    · have hm : (point.x - s.x) * (e.y - s.y) = 0 := by
        rw [hv] at hc; simpa using hc
      rcases mul_eq_zero.mp hm with h0 | h0 <;>
        rcases lt_or_ge s.y e.y with h | h
      · simp [ipGo, specSegContains, crossProd, hv, h0, h,
          min_eq_left h.le, max_eq_right h.le]
      · simp [ipGo, specSegContains, crossProd, hv, h0, not_lt.mpr h,
          min_eq_right h, max_eq_left h]
      · simp [ipGo, specSegContains, crossProd, hv, h0, h,
          min_eq_left h.le, max_eq_right h.le]
      · simp [ipGo, specSegContains, crossProd, hv, h0, not_lt.mpr h,
          min_eq_right h, max_eq_left h]
    · rcases lt_or_ge s.x e.x with h | h
      · simp [ipGo, specSegContains, crossProd, hc, hc', hv, h,
          min_eq_left h.le, max_eq_right h.le]
      · simp [ipGo, specSegContains, crossProd, hc, hc', hv, not_lt.mpr h,
          min_eq_right h, max_eq_left h]
  · have hc' : crossProd point s e ≠ 0 := hc
    simp [ipGo, specSegContains, crossProd, hc, hc']

theorem ipGo_eq_any (point : Point) (pairs : List (Point × Point)) :
    ipGo point pairs =
      if pairs.any (fun se => specSegContains point se.1 se.2) then
        some (Geometry.point point)
      else none := by
  induction pairs with
  | nil => simp [ipGo]
  | cons hd tl ih =>
    obtain ⟨s, e⟩ := hd
    rw [ipGo_cons, ih, List.any_cons]
    cases hsp : specSegContains point s e with
    | true => simp
    | false => rw [Bool.false_or]; simp

theorem intersectionPoint_eq_any (L : LineString) (p : Point)
    (h : L.points ≠ []) :
    L.intersectionPoint p =
      Except.ok (if (segPairs L).any (fun se => specSegContains p se.1 se.2)
        then some (Geometry.point p) else none) := by
  obtain ⟨ps⟩ := L
  cases ps with
  | nil => exact absurd rfl h
  | cons q qs =>
    simp only [LineString.intersectionPoint, segPairs]
    rw [ipGo_eq_any]

theorem specSegContains_start (s e : Point) : specSegContains s s e = true := by
  have hc : crossProd s s e = 0 := by simp [crossProd]
  simp only [specSegContains]
  rw [if_neg (by simp [hc])]
  exact decide_eq_true ⟨min_le_left _ _, le_max_left _ _⟩

theorem specSegContains_end (s e : Point) : specSegContains e s e = true := by
  have hc : crossProd e s e = 0 := by simp only [crossProd]; ring
  simp only [specSegContains]
  rw [if_neg (by simp [hc])]
  exact decide_eq_true ⟨min_le_right _ _, le_max_right _ _⟩

theorem specSegContains_between (p s e : Point)
    (h : strictlyBetween p s e) : specSegContains p s e = true := by
  obtain ⟨t, ht0, ht1, hx, hy⟩ := h
  have hc : crossProd p s e = 0 := by
    simp only [crossProd, hx, hy]; ring
  simp only [specSegContains]
  rw [if_neg (by simp [hc])]
  apply decide_eq_true
  by_cases hv : e.x - s.x = 0
  · simp only [if_pos hv]
    constructor
    · rcases le_total s.y e.y with h | h
      · rw [min_eq_left h, hy]; nlinarith
      · rw [min_eq_right h, hy]; nlinarith
    · rcases le_total s.y e.y with h | h
      · rw [max_eq_right h, hy]; nlinarith
      · rw [max_eq_left h, hy]; nlinarith
  · simp only [if_neg hv]
    constructor
    · rcases le_total s.x e.x with h | h
      · rw [min_eq_left h, hx]; nlinarith
      · rw [min_eq_right h, hx]; nlinarith
    · rcases le_total s.x e.x with h | h
      · rw [max_eq_right h, hx]; nlinarith
      · rw [max_eq_left h, hx]; nlinarith

theorem specSegContains_cross (p s e : Point)
    (h : specSegContains p s e = true) : crossProd p s e = 0 := by
  by_contra hc
  simp [specSegContains, hc] at h

theorem vertex_exists_match (p : Point) (ps : List Point)
    (hlen : 2 ≤ ps.length) (hmem : p ∈ ps) :
    ∃ se ∈ ps.zip ps.tail, specSegContains p se.1 se.2 = true := by
  induction ps with
  | nil => simp at hlen
  | cons a tl ih =>
    cases tl with
    | nil => simp at hlen
    | cons b t =>
      rcases List.mem_cons.mp hmem with heq | hmem'
      · subst heq
        refine ⟨(p, b), ?_, specSegContains_start p b⟩
        simp [List.zip_cons_cons]
      · cases t with
        | nil =>
          have hpb : p = b := by simpa using hmem'
          subst hpb
          refine ⟨(a, p), ?_, specSegContains_end a p⟩
          simp [List.zip_cons_cons]
        | cons c t2 =>
          obtain ⟨se, hse, hspec⟩ := ih (by simp) hmem'
          refine ⟨se, ?_, hspec⟩
          rw [List.tail_cons, List.zip_cons_cons]
          exact List.mem_cons_of_mem _ hse

theorem ipGo_shape (p : Point) (pairs : List (Point × Point)) :
    ipGo p pairs = none ∨ ipGo p pairs = some (Geometry.point p) := by
  rw [ipGo_eq_any]
  by_cases h : pairs.any (fun se => specSegContains p se.1 se.2) = true
  · right; rw [if_pos h]
  · left; rw [if_neg h]

-- Claim theorems

/-- C1: `intersect(LineString, Point)` scans consecutive vertex pairs in
order; per segment it computes the cross product and skips when nonzero;
when zero it checks inclusive min/max containment on the y-axis for a
vertical segment and the x-axis otherwise; it returns `Some(Point(p))` on
the first containing segment without scanning the rest, and `None` when no
segment contains the point. -/
theorem C1_linestring_point_scan (L : LineString) (p : Point)
    (h : L.points ≠ []) :
    (L.intersectionPoint p =
      Except.ok (if (segPairs L).any (fun se => specSegContains p se.1 se.2)
        then some (Geometry.point p) else none))
    ∧ (∀ (s e : Point) (rest : List (Point × Point)),
        specSegContains p s e = true →
          ipGo p ((s, e) :: rest) = some (Geometry.point p))
    ∧ (∀ (s e : Point) (rest : List (Point × Point)),
        crossProd p s e ≠ 0 → ipGo p ((s, e) :: rest) = ipGo p rest) := by
  refine ⟨intersectionPoint_eq_any L p h, ?_, ?_⟩
  · intro s e rest hsp
    rw [ipGo_cons, hsp, if_pos rfl]
  · intro s e rest hcr
    have hsp : specSegContains p s e = false := by
      simp [specSegContains, hcr]
    rw [ipGo_cons, hsp]
    simp

/-- Witness for C1 at the spec's concrete scenario: the LineString
`[(1,1),(3,3)]` and the point `(2,2)`. -/
theorem C1_linestring_point_scan_witness :
    (LineString.mk [Point.mk 1 1, Point.mk 3 3]).intersectionPoint (Point.mk 2 2) =
      Except.ok
        (if (segPairs (LineString.mk [Point.mk 1 1, Point.mk 3 3])).any
            (fun se => specSegContains (Point.mk 2 2) se.1 se.2)
          then some (Geometry.point (Point.mk 2 2)) else none) :=
  (C1_linestring_point_scan (LineString.mk [Point.mk 1 1, Point.mk 3 3])
    (Point.mk 2 2) (by decide)).1

/-- C2: `intersect(Point, Point)` returns `Some(Point(p1))` exactly when
the two points are structurally equal in both coordinates, and `None`
otherwise. -/
theorem C2_point_point_equality (p1 p2 : Point) :
    (Point.intersection p1 p2 = some (Geometry.point p1) ↔ p1 = p2)
    ∧ (p1 ≠ p2 → Point.intersection p1 p2 = none) := by
  constructor
  · constructor
    · intro h
      by_contra hne
      simp [Point.intersection, hne] at h
    · intro h
      simp [Point.intersection, h]
  · intro h
    simp [Point.intersection, h]

/-- Witness for C2 at the spec's concrete scenario: `(1,2)` against
`(2,2)`. -/
theorem C2_point_point_equality_witness :
    Point.intersection (Point.mk 1 2) (Point.mk 2 2) = none :=
  (C2_point_point_equality (Point.mk 1 2) (Point.mk 2 2)).2 (by decide)

/-- C3: the placeholder `intersect(LineString, LineString)` returns
`Some(LineString(line_a))` exactly when the two vertex sequences are
structurally equal, else `None`; in particular for the spec's concrete
pair of identical and of disjoint LineStrings. -/
theorem C3_linestring_linestring_equality (a b : LineString) :
    (a.intersectionLineString b = some (Geometry.lineString a) ↔
      a.points = b.points)
    ∧ (a.points ≠ b.points → a.intersectionLineString b = none)
    ∧ ((LineString.mk [Point.mk 1 1, Point.mk 3 3]).intersectionLineString
        (LineString.mk [Point.mk 1 1, Point.mk 3 3]) =
        some (Geometry.lineString (LineString.mk [Point.mk 1 1, Point.mk 3 3])))
    ∧ ((LineString.mk [Point.mk 1 1, Point.mk 3 3]).intersectionLineString
        (LineString.mk [Point.mk 4 4, Point.mk 5 5]) = none) := by
  refine ⟨⟨?_, ?_⟩, ?_, by decide, by decide⟩
  · intro h
    by_contra hne
    simp [LineString.intersectionLineString, hne] at h
  · intro h
    simp [LineString.intersectionLineString, h]
  · intro h
    simp [LineString.intersectionLineString, h]

/-- Witness for C3 at the spec's concrete disjoint pair. -/
theorem C3_linestring_linestring_equality_witness :
    (LineString.mk [Point.mk 1 1, Point.mk 3 3]).intersectionLineString
      (LineString.mk [Point.mk 4 4, Point.mk 5 5]) = none :=
  (C3_linestring_linestring_equality
    (LineString.mk [Point.mk 1 1, Point.mk 3 3])
    (LineString.mk [Point.mk 4 4, Point.mk 5 5])).2.1 (by decide)

/-- C4: for a LineString (with the data model's two-vertex minimum) and a
point that equals some vertex or lies strictly between two consecutive
collinear vertices, intersection returns `Some(Point(p))`. -/
theorem C4_vertex_or_between (L : LineString) (p : Point)
    (hlen : 2 ≤ L.points.length)
    (h : p ∈ L.points ∨ ∃ se ∈ segPairs L, strictlyBetween p se.1 se.2) :
    L.intersectionPoint p = Except.ok (some (Geometry.point p)) := by
  have hne : L.points ≠ [] := by
    intro h0
    rw [h0] at hlen
    simp at hlen
  have hmatch : ∃ se ∈ segPairs L, specSegContains p se.1 se.2 = true := by
    rcases h with hmem | ⟨se, hse, hb⟩
    · exact vertex_exists_match p L.points hlen hmem
    · exact ⟨se, hse, specSegContains_between p se.1 se.2 hb⟩
  rw [intersectionPoint_eq_any L p hne, if_pos (List.any_eq_true.mpr hmatch)]

/-- Witness for C4: the vertex `(1,1)` of the LineString `[(1,1),(3,3)]`. -/
theorem C4_vertex_or_between_witness :
    (LineString.mk [Point.mk 1 1, Point.mk 3 3]).intersectionPoint
      (Point.mk 1 1) = Except.ok (some (Geometry.point (Point.mk 1 1))) :=
  C4_vertex_or_between (LineString.mk [Point.mk 1 1, Point.mk 3 3])
    (Point.mk 1 1) (by decide) (Or.inl (by decide))

/-- C5: if the cross product of the point against every segment of the
LineString is nonzero, the intersection is `None`. -/
theorem C5_not_collinear_none (L : LineString) (p : Point)
    (hne : L.points ≠ [])
    (h : ∀ se ∈ segPairs L, crossProd p se.1 se.2 ≠ 0) :
    L.intersectionPoint p = Except.ok none := by
  have hfalse :
      (segPairs L).any (fun se => specSegContains p se.1 se.2) = false := by
    rw [List.any_eq_false]
    intro se hse habs
    exact h se hse (specSegContains_cross p se.1 se.2 habs)
  rw [intersectionPoint_eq_any L p hne, hfalse]
  simp

/-- Witness for C5 at the spec's concrete scenario: the LineString
`[(1,1),(3,3)]` and the off-line point `(1,2)`. -/
theorem C5_not_collinear_none_witness :
    (LineString.mk [Point.mk 1 1, Point.mk 3 3]).intersectionPoint
      (Point.mk 1 2) = Except.ok none :=
  C5_not_collinear_none (LineString.mk [Point.mk 1 1, Point.mk 3 3])
    (Point.mk 1 2) (by decide)
    (by
      intro se hse
      simp only [segPairs, List.zip_cons_cons, List.tail_cons,
        List.zip_nil_right, List.mem_singleton] at hse
      subst hse
      simp only [crossProd]
      norm_num)

/-- C6: the placeholder LineString-LineString intersection reports the
same overlap existence in both argument orders. -/
theorem C6_symmetric_existence (a b : LineString) :
    (a.intersectionLineString b).isSome =
      (b.intersectionLineString a).isSome := by
  by_cases h : a.points = b.points
  · simp [LineString.intersectionLineString, h]
  · have h' : ¬ b.points = a.points := fun hh => h hh.symm
    simp [LineString.intersectionLineString, h, h']

/-- C7: intersecting a LineString with itself returns
`Some(LineString(L))`. -/
theorem C7_self_intersection (L : LineString) :
    L.intersectionLineString L = some (Geometry.lineString L) := by
  simp [LineString.intersectionLineString]

/-- C8: a LineString with two consecutive equal vertices (a zero-length
segment) yields `Some(Point(p))` for a point that is not on the polyline:
the cross product against the degenerate segment is zero for every point,
the `dx_line == 0` branch selects the y-axis, and `(5,0)` passes the
inclusive y-bound check of the degenerate segment at `(0,0)` although it
lies nowhere on it. -/
theorem C8_degenerate_false_positive :
    ((LineString.mk [Point.mk 0 0, Point.mk 0 0]).intersectionPoint
        (Point.mk 5 0) =
      Except.ok (some (Geometry.point (Point.mk 5 0))))
    ∧ (∀ q : Point, crossProd q (Point.mk 0 0) (Point.mk 0 0) = 0)
    ∧ ¬ onSegment (Point.mk 5 0) (Point.mk 0 0) (Point.mk 0 0) := by
  have hspec : specSegContains (Point.mk 5 0) (Point.mk 0 0) (Point.mk 0 0)
      = true := by
    simp only [specSegContains, crossProd]
    norm_num
  refine ⟨?_, ?_, ?_⟩
  · have h1 : (LineString.mk [Point.mk 0 0, Point.mk 0 0]).intersectionPoint
        (Point.mk 5 0) =
        Except.ok (ipGo (Point.mk 5 0) [(Point.mk 0 0, Point.mk 0 0)]) := rfl
    rw [h1, ipGo_cons, hspec, if_pos rfl]
  · intro q
    simp only [crossProd]
    norm_num
  · rintro ⟨t, -, -, hx, -⟩
    norm_num at hx

/-- C9: the LineString-Point intersection is total for every non-empty
vertex list; a single-vertex LineString has no segments and returns
`None`; a zero-vertex LineString hits the out-of-bounds slice
`self.0[1..]` (modelled as the error case). -/
theorem C9_totality (p v : Point) :
    (∀ L : LineString, L.points ≠ [] → (L.intersectionPoint p).isOk = true)
    ∧ (LineString.mk [v]).intersectionPoint p = Except.ok none
    ∧ (LineString.mk []).intersectionPoint p =
        Except.error "range start index 1 out of range for slice of length 0" := by
  refine ⟨?_, rfl, rfl⟩
  intro L hne
  obtain ⟨ps⟩ := L
  cases ps with
  | nil => exact absurd rfl hne
  | cons a t => rfl

/-- Witness for C9: a two-vertex LineString is in the non-panicking
domain. -/
theorem C9_totality_witness :
    ((LineString.mk [Point.mk 1 1, Point.mk 3 3]).intersectionPoint
      (Point.mk 0 0)).isOk = true :=
  (C9_totality (Point.mk 0 0) (Point.mk 1 1)).1
    (LineString.mk [Point.mk 1 1, Point.mk 3 3]) (by decide)

/-- C10: whenever an operation returns `Some`, the wrapped geometry is the
expected variant built from an operand: `Geometry::Point` of the left
point, `Geometry::Point` of the point argument, or `Geometry::LineString`
of the left LineString. -/
theorem C10_some_wraps_operand :
    (∀ (p1 p2 : Point) (g : Geometry),
        Point.intersection p1 p2 = some g → g = Geometry.point p1)
    ∧ (∀ (L : LineString) (p : Point) (g : Geometry),
        L.intersectionPoint p = Except.ok (some g) → g = Geometry.point p)
    ∧ (∀ (a b : LineString) (g : Geometry),
        a.intersectionLineString b = some g → g = Geometry.lineString a) := by
  refine ⟨?_, ?_, ?_⟩
  · intro p1 p2 g h
    by_cases he : p1 = p2
    · simp only [Point.intersection, if_pos he] at h
      exact (Option.some.inj h).symm
    · simp [Point.intersection, he] at h
  · intro L p g h
    obtain ⟨ps⟩ := L
    cases ps with
    | nil => exact Except.noConfusion h
    | cons a t =>
      have hh : ipGo p ((a :: t).zip (a :: t).tail) = some g := by
        simpa [LineString.intersectionPoint] using h
      rcases ipGo_shape p ((a :: t).zip (a :: t).tail) with hs | hs
      · rw [hs] at hh
        exact absurd hh (by simp)
      · rw [hs] at hh
        exact (Option.some.inj hh).symm
  · intro a b g h
    by_cases he : a.points = b.points
    · simp only [LineString.intersectionLineString, if_pos he] at h
      exact (Option.some.inj h).symm
    · simp [LineString.intersectionLineString, he] at h

/-- Witness for C10 at the spec's concrete scenario `(1,2)` against
`(1,2)`. -/
theorem C10_some_wraps_operand_witness :
    Geometry.point (Point.mk 1 2) = Geometry.point (Point.mk 1 2) :=
  C10_some_wraps_operand.1 (Point.mk 1 2) (Point.mk 1 2)
    (Geometry.point (Point.mk 1 2)) (by decide)
